import Mathlib

/-!
Verification development for the snobs HTTP relay (`main.go`).

The embedding models the pure core of the program: the `ServeHTTP` routing
switch, the group-membership resolver `GetUsers` with its never-evicting
cache in `handleGetUsers`, the intersection engine `getIntersection`, the
reviewer-exclusion builder `getReviewers`, the pull-request URL matcher
`reStashURL`/`FindStringSubmatch`, and the handler `handleAddReviewers`.

Remote-platform I/O is abstracted as explicit oracles passed to the
functions: `Oracle` stands for a `GET admin/groups/more-members` round
trip (`none` models a failed call), and the pull-request metadata fetch
and the final `PUT` are likewise passed as values.  User and group names
are `String`; URL and path processing works on `List Char`.
-/

set_option maxHeartbeats 1000000

namespace Snobs

/-! ## Request routing (`ServeHTTP`, main.go lines 139-159) -/

/-- Go `strings.Trim(path, "/")`: remove all leading and trailing slashes. -/
def trimSlashes (s : List Char) : List Char :=
  ((s.dropWhile (fun c => c = '/')).reverse.dropWhile (fun c => c = '/')).reverse

/-- Split a character list at its first slash: `none` when there is no slash,
`some (before, after)` otherwise. -/
def splitFirstSlash : List Char → Option (List Char × List Char)
  | [] => none
  | c :: rest =>
    if c = '/' then some ([], rest)
    else
      match splitFirstSlash rest with
      | none => none
      | some (a, b) => some (c :: a, b)

/-- Go `strings.SplitN(s, "/", 2)`: one part when `s` contains no slash
(including the empty string, for which Go returns a one-element slice
holding the empty string), two parts otherwise. -/
def splitN2 (s : List Char) : List (List Char) :=
  match splitFirstSlash s with
  | none => [s]
  | some (a, b) => [a, b]

/-- Outcome of the `ServeHTTP` routing switch. -/
inductive Route where
  /-- `case 2`: dispatch to `handleAddReviewers usergroup pullRequestURL`. -/
  | addReviewers (usergroup pullRequestURL : List Char)
  /-- `case 1`: dispatch to `handleGetUsers usergroup`. -/
  | getUsers (usergroup : List Char)
  /-- `default`: HTTP 400 with the usage hint text. -/
  | badRequestUsage
deriving DecidableEq

/-- The routing switch of `ServeHTTP`: trim slashes, `SplitN` with limit 2,
then switch on the number of parts (2, 1, default). -/
def serveHTTP (path : List Char) : Route :=
  match splitN2 (trimSlashes path) with
  | [g, pr] => Route.addReviewers g pr
  | [g] => Route.getUsers g
  | _ => Route.badRequestUsage

/-! ## Group resolver and membership cache
(`GetUsers` lines 219-235, `handleGetUsers` lines 194-217) -/

/-- One record of the upstream `values` array in `ResponseUsers`. -/
structure ResponseUser where
  name : String
deriving DecidableEq

/-- Result of one `GET admin/groups/more-members?context=g` round trip:
`none` models a failed call, `some users` a decoded `ResponseUsers` body. -/
def Oracle := String → Option (List ResponseUser)

/-- `GetUsers`: query the upstream API for a group's members.  On upstream
failure it returns the empty list and a nil error (the error is swallowed);
on success it collects the `Name` fields in order.  The second component is
the returned Go `error` value. -/
def GetUsers (api : Oracle) (group : String) : List String × Option String :=
  match api group with
  | none => ([], none)
  | some responseUsers =>
      (responseUsers.foldl (fun names user => names ++ [user.name]) [], none)

/-- The membership cache `map[string][]string`, as an association list;
keys are unique because the program only ever inserts absent keys. -/
abbrev Cache := List (String × List String)

/-- Go map read `users, ok := server.cache[usergroup]`. -/
def cacheLookup (cache : Cache) (group : String) : Option (List String) :=
  match cache with
  | [] => none
  | (g, users) :: rest => if g = group then some users else cacheLookup rest group

/-- HTTP response of `handleGetUsers`. -/
inductive UsersResponse where
  /-- JSON-encoded user list with HTTP 200. -/
  | ok (users : List String)
  /-- HTTP 500 with the error text. -/
  | serverError (msg : String)
deriving DecidableEq

/-- Everything observable about one `handleGetUsers` call: the HTTP
response, the cache afterwards, and whether the upstream API was called. -/
structure HandleUsersOut where
  response : UsersResponse
  cache : Cache
  calledUpstream : Bool
deriving DecidableEq

/-- `handleGetUsers`: consult the cache; on a miss call `GetUsers`
(responding 500 if it errs) and store the result under the group key only
when it is non-empty. -/
def handleGetUsers (api : Oracle) (cache : Cache) (usergroup : String) :
    HandleUsersOut :=
  match cacheLookup cache usergroup with
  | some users => ⟨UsersResponse.ok users, cache, false⟩
  | none =>
      match GetUsers api usergroup with
      | (_, some e) => ⟨UsersResponse.serverError e, cache, true⟩
      | (users, none) =>
          let cache' := if users.length > 0 then (usergroup, users) :: cache else cache
          ⟨UsersResponse.ok users, cache', true⟩

/-! ## Intersection engine (`getIntersection`, lines 356-377) -/

/-- One iteration of the inner loop of `getIntersection`: on a value
match, append `origItem` to the accumulator unless the `exists` scan finds
it there already. -/
def interStep (origItem : String) (intersection : List String)
    (otherItem : String) : List String :=
  if origItem = otherItem then
    if intersection.any (fun interItem => origItem == interItem) then
      intersection
    else
      intersection ++ [origItem]
  else
    intersection

/-- `getIntersection`: for each item of `original`, scan all of `other`;
a direct rendering of the three nested loops (the innermost being the
`exists` scan inside `interStep`). -/
def getIntersection (original other : List String) : List String :=
  original.foldl
    (fun intersection origItem => other.foldl (interStep origItem) intersection)
    []

/-- Specification-side first-occurrence deduplication (spec section 4.2):
keep each element not already in `seen`, in order, at most once. -/
def dedupFirstFrom (seen : List String) : List String → List String
  | [] => []
  | x :: xs =>
      if x ∈ seen then dedupFirstFrom seen xs
      else x :: dedupFirstFrom (x :: seen) xs

/-- Specification-side intersection (spec section 4.2): the members of
`target` that appear anywhere in `others`, in first-occurrence order of
`target`, each at most once. -/
def specIntersect (target others : List String) : List String :=
  dedupFirstFrom [] (target.filter (fun x => others.contains x))

/-! ## Reviewer building (`getReviewers` lines 295-318, `AddReviewers`
lines 237-265, `GetUsersIntersection` lines 320-354,
`handleAddReviewers` lines 161-192) -/

/-- The inner object of one reviewer entry `{"user": {"name": ...}}`. -/
structure ReviewerUser where
  name : String
deriving DecidableEq

/-- One entry of the `reviewers` array in the update payload. -/
structure Reviewer where
  user : ReviewerUser
deriving DecidableEq

/-- One iteration of the `getReviewers` loop: skip the user when the
`ignore` scan finds it in `ignoreUsers`, otherwise append its payload
entry. -/
def reviewerStep (ignoreUsers : List String) (reviewers : List Reviewer)
    (user : String) : List Reviewer :=
  if ignoreUsers.any (fun ignoreUser => ignoreUser == user) then
    reviewers
  else
    reviewers ++ [⟨⟨user⟩⟩]

/-- `getReviewers`: keep each user, in order, unless it occurs in
`ignoreUsers`; wrap the survivors as reviewer payload entries. -/
def getReviewers (users ignoreUsers : List String) : List Reviewer :=
  users.foldl (reviewerStep ignoreUsers) []

/-- The body of the `PUT .../pull-requests/{id}` update call. -/
structure UpdatePayload where
  id : List Char
  version : Int
  reviewers : List Reviewer
deriving DecidableEq

/-- `AddReviewers`: fetch pull-request metadata (modelled by `prInfo`:
`Except.error e` is a failed `GetPullRequestInfo`, `Except.ok (author,
version)` a successful one), build the payload with
`getReviewers users [author, stashUser]`, and issue the `PUT` (whose own
error is `putErr`).  The result carries the payload actually sent together
with the `PUT`'s error, or the propagated metadata-fetch error. -/
def AddReviewers (prInfo : Except String (String × Int)) (putErr : Option String)
    (stashUser : String) (pullRequest : List Char) (users : List String) :
    Except String (UpdatePayload × Option String) :=
  match prInfo with
  | Except.error e => Except.error e
  | Except.ok (author, version) =>
      Except.ok (⟨pullRequest, version, getReviewers users [author, stashUser]⟩, putErr)

/-- The loop of `GetUsersIntersection` over the configured `intersect`
groups, appending each group's members; an upstream error would abort with
the empty list and that error. -/
def collectIntersectUsers (api : Oracle) :
    List String → List String → List String × Option String
  | [], intersectUsers => (intersectUsers, none)
  | group :: rest, intersectUsers =>
      match GetUsers api group with
      | (_, some e) => ([], some e)
      | (groupUsers, none) =>
          collectIntersectUsers api rest (intersectUsers ++ groupUsers)

/-- `GetUsersIntersection`: resolve the target group, append the members of
every configured intersect group, and intersect.  Note it calls `GetUsers`
directly, without consulting the cache. -/
def GetUsersIntersection (api : Oracle) (targetGroup : String)
    (intersectGroups : List String) : List String × Option String :=
  match GetUsers api targetGroup with
  | (_, some e) => ([], some e)
  | (targetUsers, none) =>
      match collectIntersectUsers api intersectGroups [] with
      | (_, some e) => ([], some e)
      | (intersectUsers, none) =>
          (getIntersection targetUsers intersectUsers, none)

/-! ## Pull-request URL matching (`reStashURL` lines 29-34, used at
lines 173-183).  The pattern is
`(https?://.*/)(users|projects)/([^/]+)/repos/([^/]+)/pull-requests/(\d+)`
and `FindStringSubmatch` finds the leftmost match with preference-order
(greedy) submatches; the handler uses capture groups 3, 4, 5. -/

/-- Match a literal piece of the pattern: `chopLit p s = some r` exactly
when `s = p ++ r`. -/
def chopLit : List Char → List Char → Option (List Char)
  | [], s => some s
  | _ :: _, [] => none
  | p :: ps, c :: cs => if p = c then chopLit ps cs else none

/-- The final `(\d+)` of the pattern: a greedy non-empty digit run at the
start of `r5` (nothing follows it in the pattern, so maximal munch is
forced). -/
def matchDigitsPart (r5 : List Char) : Option (List Char) :=
  let digits := r5.takeWhile Char.isDigit
  if digits = [] then none
  else some digits

/-- The pattern piece `([^/]+)/pull-requests/(\d+)` at the start of `r3`:
the greedy `[^/]+` is followed by a literal slash, so maximal munch is
forced. -/
def matchRepoPart (r3 : List Char) : Option (List Char × List Char) :=
  let repo := r3.takeWhile (fun c => c != '/')
  let r4 := r3.dropWhile (fun c => c != '/')
  if repo = [] then none
  else
    match chopLit ("/pull-requests/".data) r4 with
    | none => none
    | some r5 =>
        match matchDigitsPart r5 with
        | none => none
        | some digits => some (repo, digits)

/-- Match the part of the pattern tail after the alternation,
`([^/]+)/repos/([^/]+)/pull-requests/(\d+)`, at the start of `r1`; the
greedy `[^/]+` is again followed by a literal slash, so maximal munch is
forced and no backtracking arises here. -/
def matchTailRest (r1 : List Char) : Option (List Char × List Char × List Char) :=
  let name := r1.takeWhile (fun c => c != '/')
  let r2 := r1.dropWhile (fun c => c != '/')
  if name = [] then none
  else
    match chopLit ("/repos/".data) r2 with
    | none => none
    | some r3 =>
        match matchRepoPart r3 with
        | none => none
        | some (repo, digits) => some (name, repo, digits)

/-- Match the pattern tail
`(users|projects)/([^/]+)/repos/([^/]+)/pull-requests/(\d+)` at the start
of `s`, returning capture groups 3, 4 and 5.  The two alternation branches
begin with distinct letters, so at most one of them can apply. -/
def matchTail (s : List Char) : Option (List Char × List Char × List Char) :=
  match (match chopLit ("users/".data) s with
         | some r => some r
         | none => chopLit ("projects/".data) s) with
  | none => none
  | some r1 => matchTailRest r1

/-- The greedy `.*/` of capture group 1 followed by the pattern tail:
prefer the longest stretch of `.*` (rightmost slash), remembering that `.`
matches every character except a newline; on failure of every longer
stretch, use the slash at the current position as the literal `/` and
match the tail after it. -/
def greedySlashSplit : List Char → Option (List Char × List Char × List Char)
  | [] => none
  | c :: rest =>
      match (if c = '\n' then none else greedySlashSplit rest) with
      | some caps => some caps
      | none => if c = '/' then matchTail rest else none

/-- `https?://` with its greedy optional `s`: the two branches are
mutually exclusive (after `http`, a branch needs `s` exactly when the
other needs `:`), so no backtracking across them is possible. -/
def matchScheme (s : List Char) : Option (List Char) :=
  match chopLit ("http".data) s with
  | none => none
  | some r =>
      match chopLit ("s://".data) r with
      | some r' => some r'
      | none => chopLit ("://".data) r

/-- `reStashURL.FindStringSubmatch`: try every start position from the
left; at each, match the scheme and then the greedy `.*/` plus tail.
Returns capture groups 3 (project), 4 (repository), 5 (pull-request id)
of the leftmost match. -/
def findStashURL : List Char → Option (List Char × List Char × List Char)
  | [] => none
  | c :: rest =>
      match (match matchScheme (c :: rest) with
             | none => none
             | some r => greedySlashSplit r) with
      | some caps => some caps
      | none => findStashURL rest

/-- HTTP response of `handleAddReviewers`. -/
inductive HandlerResult where
  /-- HTTP 400 with the error text (`err.Error()` or `wrong url`). -/
  | badRequest (msg : String)
  /-- HTTP 500 with the error text. -/
  | internalError (msg : String)
  /-- HTTP 200; `payload` is the body of the `PUT` that was issued. -/
  | success (payload : UpdatePayload)
deriving DecidableEq

/-- `handleAddReviewers`: resolve the intersected user set (400 on error),
match the pull-request URL (400 `wrong url` when the pattern matches
nowhere), then run `AddReviewers` (500 on its error). -/
def handleAddReviewers (api : Oracle) (prInfo : Except String (String × Int))
    (putErr : Option String) (stashUser : String) (intersectGroups : List String)
    (usergroup : String) (pullRequestURL : List Char) : HandlerResult :=
  match GetUsersIntersection api usergroup intersectGroups with
  | (_, some e) => HandlerResult.badRequest e
  | (users, none) =>
      match findStashURL pullRequestURL with
      | none => HandlerResult.badRequest "wrong url"
      | some (_project, _repository, pullRequest) =>
          match AddReviewers prInfo putErr stashUser pullRequest users with
          | Except.error e => HandlerResult.internalError e
          | Except.ok (_, some e) => HandlerResult.internalError e
          | Except.ok (payload, none) => HandlerResult.success payload

/-! ## Request sequences over the shared cache -/

/-- An inbound request, as dispatched by `serveHTTP`. -/
inductive Request where
  | listUsers (group : String)
  | assignReviewers (group : String) (url : List Char)

/-- Cache evolution of one handled request: `handleGetUsers` may insert an
entry; `handleAddReviewers` never reads or writes the cache (it calls
`GetUsers` directly). -/
def stepCache (api : Oracle) (cache : Cache) : Request → Cache
  | Request.listUsers g => (handleGetUsers api cache g).cache
  | Request.assignReviewers _ _ => cache

/-- Run a sequence of requests, each with its own upstream oracle,
threading the shared cache. -/
def runRequests (steps : List (Oracle × Request)) (cache : Cache) : Cache :=
  steps.foldl (fun c s => stepCache s.1 c s.2) cache

/-! ## Routing lemmas -/

lemma splitFirstSlash_eq_none {s : List Char} (h : '/' ∉ s) :
    splitFirstSlash s = none := by
  induction s with
  | nil => rfl
  | cons c rest ih =>
      have hc : ¬ c = '/' := fun e => h (e ▸ List.mem_cons_self c rest)
      have hr : '/' ∉ rest := fun m => h (List.mem_cons_of_mem c m)
      simp [splitFirstSlash, hc, ih hr]

lemma splitFirstSlash_append (g pr : List Char) (h : '/' ∉ g) :
    splitFirstSlash (g ++ '/' :: pr) = some (g, pr) := by
  induction g with
  | nil => simp [splitFirstSlash]
  | cons c rest ih =>
      have hc : ¬ c = '/' := fun e => h (e ▸ List.mem_cons_self c rest)
      have hr : '/' ∉ rest := fun m => h (List.mem_cons_of_mem c m)
      simp [splitFirstSlash, hc, ih hr]

/-- C1 (amended): `SplitN` with limit 2 always yields one or two parts, so
the router never answers with the usage-hint 400.  A path whose trimmed
form has no slash — including `/`, which trims to the empty string — enters
list-users mode with the trimmed string (possibly empty) as the group; a
path whose trimmed form contains a slash enters assign-reviewers mode with
the part before the first slash as the group and the whole remainder
(slashes included) as the pull-request URL. -/
theorem serveHTTP_dispatch (path : List Char) :
    serveHTTP path ≠ Route.badRequestUsage ∧
    ('/' ∉ trimSlashes path → serveHTTP path = Route.getUsers (trimSlashes path)) ∧
    (∀ g pr, trimSlashes path = g ++ '/' :: pr → '/' ∉ g →
        serveHTTP path = Route.addReviewers g pr) := by
  refine ⟨?_, ?_, ?_⟩
  · unfold serveHTTP splitN2
    cases h : splitFirstSlash (trimSlashes path) with
    | none => simp
    | some ab => cases ab with | mk a b => simp
  · intro h
    unfold serveHTTP splitN2
    rw [splitFirstSlash_eq_none h]
  · intro g pr hsplit hg
    unfold serveHTTP splitN2
    rw [hsplit, splitFirstSlash_append g pr hg]

/-- C1 witness: `/a/b/c` is dispatched to assign-reviewers mode with group
`a` and pull-request URL `b/c`. -/
theorem serveHTTP_dispatch_witness :
    serveHTTP ("/a/b/c".data) = Route.addReviewers ("a".data) ("b/c".data) :=
  (serveHTTP_dispatch ("/a/b/c".data)).2.2 ("a".data) ("b/c".data)
    (by decide) (by decide)

/-- C1 counterexample: the path `/` (zero segments) is dispatched to
list-users mode with the empty group name, and `/a/b/c` (more than two
segments) is dispatched to assign-reviewers mode; neither is answered with
the usage-hint 400. -/
theorem serveHTTP_routing_counterexample :
    serveHTTP ("/".data) = Route.getUsers [] ∧
    serveHTTP ("/".data) ≠ Route.badRequestUsage ∧
    serveHTTP ("/a/b/c".data) ≠ Route.badRequestUsage := by
  decide

/-! ## Intersection lemmas -/

lemma any_beq_iff (l : List String) (x : String) :
    (l.any fun y => x == y) = true ↔ x ∈ l := by
  simp [List.any_eq_true]

lemma interStep_self (origItem : String) (I : List String) :
    interStep origItem I origItem
      = if origItem ∈ I then I else I ++ [origItem] := by
  by_cases hI : origItem ∈ I
  · have ha : (I.any fun interItem => origItem == interItem) = true :=
      (any_beq_iff I origItem).mpr hI
    simp [interStep, ha, hI]
  · have ha : (I.any fun interItem => origItem == interItem) = false := by
      rw [Bool.eq_false_iff]
      intro hh
      exact hI ((any_beq_iff I origItem).mp hh)
    simp [interStep, ha, hI]

lemma interStep_ne (origItem : String) (I : List String) (o : String)
    (h : origItem ≠ o) : interStep origItem I o = I := by
  simp [interStep, h]

lemma inner_fold_eq (origItem : String) (other I : List String) :
    other.foldl (interStep origItem) I
      = if origItem ∈ other then (if origItem ∈ I then I else I ++ [origItem])
        else I := by
  induction other generalizing I with
  | nil => simp
  | cons o os ih =>
      rw [List.foldl_cons]
      by_cases h : origItem = o
      · subst h
        rw [interStep_self]
        by_cases hI : origItem ∈ I
        · rw [if_pos hI, ih]
          simp [hI]
        · rw [if_neg hI, ih]
          have hm : origItem ∈ I ++ [origItem] := by simp
          simp [hI, hm]
      · rw [interStep_ne origItem I o h, ih]
        simp [List.mem_cons, h]

lemma dedupFirstFrom_congr :
    ∀ (l s₁ s₂ : List String), (∀ y, y ∈ s₁ ↔ y ∈ s₂) →
      dedupFirstFrom s₁ l = dedupFirstFrom s₂ l := by
  intro l
  induction l with
  | nil => intro s₁ s₂ _; rfl
  | cons x xs ih =>
      intro s₁ s₂ h
      by_cases hx : x ∈ s₁
      · simp only [dedupFirstFrom, if_pos hx, if_pos ((h x).mp hx)]
        exact ih s₁ s₂ h
      · simp only [dedupFirstFrom, if_neg hx, if_neg (fun m => hx ((h x).mpr m))]
        refine congrArg (fun l => x :: l) (ih (x :: s₁) (x :: s₂) ?_)
        intro y
        simp [List.mem_cons, h y]

lemma outer_fold_eq (others : List String) :
    ∀ (t I : List String),
      t.foldl
        (fun intersection origItem =>
          others.foldl (interStep origItem) intersection) I
        = I ++ dedupFirstFrom I (t.filter fun x => others.contains x) := by
  intro t
  induction t with
  | nil => intro I; simp [dedupFirstFrom]
  | cons x xs ih =>
      intro I
      rw [List.foldl_cons]
      rw [inner_fold_eq x others I]
      by_cases hmem : x ∈ others
      · by_cases hI : x ∈ I
        · rw [if_pos hmem, if_pos hI, ih]
          congr 1
          simp [List.filter_cons, hmem, dedupFirstFrom, hI]
        · rw [if_pos hmem, if_neg hI, ih]
          have hcong := dedupFirstFrom_congr
            (xs.filter fun y => others.contains y) (I ++ [x]) (x :: I)
            (by intro y; simp [List.mem_append, List.mem_cons, or_comm])
          rw [hcong]
          simp [List.filter_cons, hmem, dedupFirstFrom, hI, List.append_assoc]
      · rw [if_neg hmem, ih]
        congr 1
        simp [List.filter_cons, hmem]

/-- Shared helper: intersecting with an empty `other` list yields `[]`. -/
lemma getIntersection_nil_aux (t : List String) : getIntersection t [] = [] := by
  have h := outer_fold_eq [] t []
  unfold getIntersection
  rw [h]
  simp [dedupFirstFrom]

/-- C4: `getIntersection` returns the members of `target` that appear
anywhere in `others`, in first-occurrence order of `target`, each at most
once even when repeated in `target`; in particular
`getIntersection ["a","b","a","c"] ["a","c"] = ["a","c"]`. -/
theorem getIntersection_spec (target others : List String) :
    getIntersection target others = specIntersect target others ∧
    getIntersection ["a", "b", "a", "c"] ["a", "c"] = ["a", "c"] := by
  constructor
  · have h := outer_fold_eq others target []
    unfold getIntersection specIntersect
    rw [h]
    simp
  · decide

/-- C5: intersection with an empty `others` list yields the empty list,
never `target` itself. -/
theorem getIntersection_empty_others (target : List String) :
    getIntersection target [] = [] :=
  getIntersection_nil_aux target

/-! ## Reviewer-exclusion lemmas -/

lemma getReviewers_aux (ignoreUsers : List String) :
    ∀ (users : List String) (acc : List Reviewer),
      users.foldl (reviewerStep ignoreUsers) acc
        = acc ++ (users.filter fun u => !(ignoreUsers.any fun i => i == u)).map
            (fun u => (⟨⟨u⟩⟩ : Reviewer)) := by
  intro users
  induction users with
  | nil => intro acc; simp
  | cons u us ih =>
      intro acc
      rw [List.foldl_cons]
      by_cases h : (ignoreUsers.any fun i => i == u) = true
      · rw [show reviewerStep ignoreUsers acc u = acc by simp [reviewerStep, h], ih]
        congr 1
        simp [List.filter_cons, h]
      · rw [Bool.not_eq_true] at h
        rw [show reviewerStep ignoreUsers acc u = acc ++ [⟨⟨u⟩⟩] by
              simp [reviewerStep, h],
            ih]
        simp [List.filter_cons, h, List.append_assoc]

lemma getReviewers_eq (users ignoreUsers : List String) :
    getReviewers users ignoreUsers
      = (users.filter fun u => !(ignoreUsers.any fun i => i == u)).map
          (fun u => (⟨⟨u⟩⟩ : Reviewer)) := by
  have h := getReviewers_aux ignoreUsers users []
  unfold getReviewers
  rw [h]
  simp

lemma ignore_two_pred (author own : String) :
    (fun u => !([author, own].any fun i => i == u))
      = fun u => decide (u ≠ author ∧ u ≠ own) := by
  funext u
  by_cases h1 : u = author
  · subst h1; simp
  · by_cases h2 : u = own
    · subst h2; simp
    · have e1 : (author == u) = false := by
        rw [Bool.eq_false_iff]
        intro hh
        exact h1 (eq_of_beq hh).symm
      have e2 : (own == u) = false := by
        rw [Bool.eq_false_iff]
        intro hh
        exact h2 (eq_of_beq hh).symm
      simp [e1, e2, h1, h2]

/-- C7: the reviewer list of the update payload is exactly the candidate
list with every occurrence of the author and of the service's own account
removed, order preserved; in particular candidates
`["alice","bob","svc"]` with author `bob` and own account `svc` yield
exactly the one reviewer entry for `alice`. -/
theorem addReviewers_excludes (users : List String) (author own : String)
    (pr : List Char) (v : Int) (putErr : Option String) :
    AddReviewers (Except.ok (author, v)) putErr own pr users
      = Except.ok
          (⟨pr, v,
            (users.filter fun u => decide (u ≠ author ∧ u ≠ own)).map
              (fun u => (⟨⟨u⟩⟩ : Reviewer))⟩, putErr) ∧
    getReviewers ["alice", "bob", "svc"] ["bob", "svc"] = [⟨⟨"alice"⟩⟩] := by
  constructor
  · simp only [AddReviewers]
    rw [getReviewers_eq, ignore_two_pred]
  · decide

/-! ## Cache lemmas -/

lemma GetUsers_err_none (api : Oracle) (g : String) :
    (GetUsers api g).2 = none := by
  unfold GetUsers
  cases api g <;> simp

lemma handleGetUsers_hit (api : Oracle) (cache : Cache) (g : String)
    (users : List String) (h : cacheLookup cache g = some users) :
    handleGetUsers api cache g = ⟨UsersResponse.ok users, cache, false⟩ := by
  unfold handleGetUsers
  simp [h]

lemma handleGetUsers_cache_mono (api : Oracle) (cache : Cache) (g' g : String)
    (users : List String) (h : cacheLookup cache g = some users) :
    cacheLookup (handleGetUsers api cache g').cache g = some users := by
  unfold handleGetUsers
  cases hl : cacheLookup cache g' with
  | some us => simpa using h
  | none =>
      cases hg : GetUsers api g' with
      | mk us err =>
          cases err with
          | some e => simpa using h
          | none =>
              by_cases hlen : us.length > 0
              · have hne : ¬ g' = g := by
                  intro e
                  subst e
                  rw [hl] at h
                  exact Option.noConfusion h
                simp [hlen, cacheLookup, hne, h]
              · simpa [hlen] using h

lemma stepCache_mono (api : Oracle) (cache : Cache) (r : Request) (g : String)
    (users : List String) (h : cacheLookup cache g = some users) :
    cacheLookup (stepCache api cache r) g = some users := by
  cases r with
  | listUsers g' => exact handleGetUsers_cache_mono api cache g' g users h
  | assignReviewers _ _ => exact h

lemma runRequests_mono (steps : List (Oracle × Request)) (cache : Cache)
    (g : String) (users : List String) (h : cacheLookup cache g = some users) :
    cacheLookup (runRequests steps cache) g = some users := by
  induction steps generalizing cache with
  | nil => exact h
  | cons s ss ih => exact ih _ (stepCache_mono s.1 cache s.2 g users h)

lemma handleGetUsers_ok_nonempty_cached (api : Oracle) (cache : Cache)
    (g : String) (users : List String)
    (hres : (handleGetUsers api cache g).response = UsersResponse.ok users)
    (hne : users ≠ []) :
    cacheLookup (handleGetUsers api cache g).cache g = some users := by
  unfold handleGetUsers at hres ⊢
  cases hl : cacheLookup cache g with
  | some us =>
      simp [hl] at hres ⊢
      exact hres
  | none =>
      cases hg : GetUsers api g with
      | mk us err =>
          cases err with
          | some e => simp [hl, hg] at hres
          | none =>
              simp [hl, hg] at hres ⊢
              rw [hres]
              have hlen : users.length > 0 := List.length_pos.mpr hne
              simp [hlen, cacheLookup]

/-- C2: once a resolution of a group via `handleGetUsers` has answered
with a non-empty user list, every later resolution of that group — after
any further sequence of handled requests, each with an arbitrary upstream
oracle — answers with the identical sequence straight from the cache,
leaves the cache unchanged, and does not call the upstream API. -/
theorem cache_hit_after_first (api : Oracle) (cache : Cache) (g : String)
    (users : List String)
    (hres : (handleGetUsers api cache g).response = UsersResponse.ok users)
    (hne : users ≠ [])
    (steps : List (Oracle × Request)) (api' : Oracle) :
    handleGetUsers api' (runRequests steps (handleGetUsers api cache g).cache) g
      = ⟨UsersResponse.ok users,
         runRequests steps (handleGetUsers api cache g).cache, false⟩ := by
  have hcached := handleGetUsers_ok_nonempty_cached api cache g users hres hne
  have h2 := runRequests_mono steps _ g users hcached
  exact handleGetUsers_hit api' _ g users h2

/-- C2 witness: after resolving `dev` to `["alice"]` and then handling an
unrelated request, resolving `dev` again returns `["alice"]` from the
cache without an upstream call, even against an oracle that now fails. -/
theorem cache_hit_after_first_witness :
    handleGetUsers (fun _ => none)
        (runRequests [((fun _ => none), Request.listUsers "qa")]
          (handleGetUsers (fun _ => some [⟨"alice"⟩]) [] "dev").cache) "dev"
      = ⟨UsersResponse.ok ["alice"],
         runRequests [((fun _ => none), Request.listUsers "qa")]
           (handleGetUsers (fun _ => some [⟨"alice"⟩]) [] "dev").cache, false⟩ :=
  cache_hit_after_first (fun _ => some [⟨"alice"⟩]) [] "dev" ["alice"] rfl
    (by decide) [((fun _ => none), Request.listUsers "qa")] (fun _ => none)

/-- C3: when the upstream call for a group fails, `GetUsers` returns the
empty list together with a nil error (the failure is swallowed), and
handling the list-users request leaves the cache unchanged whatever its
prior contents. -/
theorem getUsers_fail_open (api : Oracle) (g : String) (h : api g = none) :
    GetUsers api g = ([], none) ∧
    ∀ cache : Cache, (handleGetUsers api cache g).cache = cache := by
  have hg : GetUsers api g = ([], none) := by
    unfold GetUsers
    rw [h]
  refine ⟨hg, ?_⟩
  intro cache
  unfold handleGetUsers
  cases hl : cacheLookup cache g with
  | some us => rfl
  | none => simp [hg]

/-- C3 witness: a failing oracle yields the empty list with nil error and
leaves a concrete cache untouched. -/
theorem getUsers_fail_open_witness :
    GetUsers (fun _ => none) "dev" = ([], none) ∧
    (handleGetUsers (fun _ => none) [("qa", ["bob"])] "dev").cache
      = [("qa", ["bob"])] :=
  ⟨(getUsers_fail_open (fun _ => none) "dev" rfl).1,
   (getUsers_fail_open (fun _ => none) "dev" rfl).2 [("qa", ["bob"])]⟩

/-- C8: when a group resolves (on a cache miss) to the empty list, nothing
is stored in the cache, so the next resolution of the group calls the
upstream API again. -/
theorem empty_never_cached (api api' : Oracle) (cache : Cache) (g : String)
    (hmiss : cacheLookup cache g = none) (hemp : (GetUsers api g).1 = []) :
    (handleGetUsers api cache g).cache = cache ∧
    (handleGetUsers api' ((handleGetUsers api cache g).cache) g).calledUpstream
      = true := by
  have h1 : (handleGetUsers api cache g).cache = cache := by
    unfold handleGetUsers
    cases hg : GetUsers api g with
    | mk us err =>
        rw [hg] at hemp
        simp only at hemp
        cases err with
        | some e => simp [hmiss, hg]
        | none => simp [hmiss, hg, hemp]
  have h2 : (handleGetUsers api' cache g).calledUpstream = true := by
    unfold handleGetUsers
    cases GetUsers api' g with
    | mk us err => cases err <;> simp [hmiss]
  refine ⟨h1, ?_⟩
  rw [h1]
  exact h2

/-- C8 witness: an upstream answer with zero members is not cached and the
following resolution calls upstream again. -/
theorem empty_never_cached_witness :
    (handleGetUsers (fun _ => some []) [] "dev").cache = [] ∧
    (handleGetUsers (fun _ => some [⟨"alice"⟩])
        ((handleGetUsers (fun _ => some []) [] "dev").cache) "dev").calledUpstream
      = true :=
  empty_never_cached (fun _ => some []) (fun _ => some [⟨"alice"⟩]) [] "dev"
    rfl rfl

/-- C9: cache immutability — handling any request preserves every existing
cache entry, and either leaves the cache unchanged or adds a single entry
under a previously absent key (with a non-empty value). -/
theorem cache_immutable (api : Oracle) (cache : Cache) (r : Request) :
    (∀ g users, cacheLookup cache g = some users →
        cacheLookup (stepCache api cache r) g = some users) ∧
    (stepCache api cache r = cache ∨
      ∃ g users, cacheLookup cache g = none ∧ users ≠ [] ∧
        stepCache api cache r = (g, users) :: cache) := by
  constructor
  · intro g users h
    exact stepCache_mono api cache r g users h
  · cases r with
    | assignReviewers _ _ => exact Or.inl rfl
    | listUsers g' =>
        show (handleGetUsers api cache g').cache = cache ∨ _
        unfold handleGetUsers
        cases hl : cacheLookup cache g' with
        | some us => exact Or.inl rfl
        | none =>
            cases hg : GetUsers api g' with
            | mk us err =>
                cases err with
                | some e => exact Or.inl rfl
                | none =>
                    by_cases hus : us = []
                    · exact Or.inl (by simp [hus])
                    · refine Or.inr ⟨g', us, hl, hus, ?_⟩
                      have hlen : us.length > 0 := List.length_pos.mpr hus
                      simp [stepCache, handleGetUsers, hl, hg, hlen]

/-- C9 witness: an existing entry survives a request that inserts under a
different key. -/
theorem cache_immutable_witness :
    cacheLookup
        (stepCache (fun _ => none) [("dev", ["alice"])] (Request.listUsers "qa"))
        "dev"
      = some ["alice"] :=
  (cache_immutable (fun _ => none) [("dev", ["alice"])]
    (Request.listUsers "qa")).1 "dev" ["alice"] rfl

/-! ## URL-matching lemmas -/

lemma chopLit_self : ∀ (p r : List Char), chopLit p (p ++ r) = some r := by
  intro p
  induction p with
  | nil => intro r; rfl
  | cons c cs ih => intro r; simp [chopLit, ih]

lemma chopLit_none_digits (p : Char) (ps : List Char) (hp : p.isDigit = false)
    (l : List Char) (h : l.all Char.isDigit = true) : chopLit (p :: ps) l = none := by
  cases l with
  | nil => rfl
  | cons d rest =>
      simp only [List.all_cons, Bool.and_eq_true] at h
      have hne : ¬ p = d := by
        intro e
        rw [e, h.1] at hp
        exact Bool.noConfusion hp
      simp [chopLit, hne]

lemma chopLit_word_slash :
    ∀ (w repo t : List Char), '/' ∉ w → '/' ∉ repo →
      chopLit (w ++ ['/']) (repo ++ '/' :: t)
        = if repo = w then some t else none := by
  intro w
  induction w with
  | nil =>
      intro repo t _ hr
      cases repo with
      | nil => simp [chopLit]
      | cons r rs =>
          have hne : ¬ ('/' : Char) = r := by
            intro e
            exact hr (by rw [← e]; exact List.mem_cons_self '/' rs)
          simp [chopLit, hne]
  | cons a ws ih =>
      intro repo t hw hr
      cases repo with
      | nil =>
          have hne : ¬ a = '/' := fun e => hw (e ▸ List.mem_cons_self a ws)
          simp [chopLit, hne]
      | cons r rs =>
          have hw' : '/' ∉ ws := fun m => hw (List.mem_cons_of_mem a m)
          have hr' : '/' ∉ rs := fun m => hr (List.mem_cons_of_mem r m)
          by_cases har : a = r
          · subst har
            have h0 : chopLit ((a :: ws) ++ ['/']) ((a :: rs) ++ '/' :: t)
                = chopLit (ws ++ ['/']) (rs ++ '/' :: t) := by
              simp [chopLit]
            rw [h0, ih rs t hw' hr']
            by_cases h2 : rs = ws
            · simp [h2]
            · have h3 : ¬ (a :: rs = a :: ws) := by
                intro e
                injection e with _ e2
                exact h2 e2
              simp [h2, h3]
          · have h0 : chopLit ((a :: ws) ++ ['/']) ((r :: rs) ++ '/' :: t) = none := by
              simp [chopLit, har]
            have h1 : ¬ (r :: rs = a :: ws) := by
              intro e
              injection e with e1 _
              exact har e1.symm
            rw [h0, if_neg h1]

lemma gss_step (c : Char) (rest : List Char) (h1 : c ≠ '\n') (h2 : c ≠ '/') :
    greedySlashSplit (c :: rest) = greedySlashSplit rest := by
  simp only [greedySlashSplit, if_neg h1]
  cases greedySlashSplit rest with
  | some caps => rfl
  | none => simp [h2]

lemma gss_slash (rest : List Char) :
    greedySlashSplit ('/' :: rest)
      = match greedySlashSplit rest with
        | some caps => some caps
        | none => matchTail rest := by
  simp only [greedySlashSplit, if_neg (by decide : ¬ ('/' : Char) = '\n')]
  cases greedySlashSplit rest with
  | some caps => rfl
  | none => simp

lemma gss_none_of_no_slash : ∀ (l : List Char), '/' ∉ l → greedySlashSplit l = none := by
  intro l
  induction l with
  | nil => intro _; rfl
  | cons c rest ih =>
      intro h
      have hc : ¬ c = '/' := fun e => h (e ▸ List.mem_cons_self c rest)
      have hr : '/' ∉ rest := fun m => h (List.mem_cons_of_mem c m)
      by_cases hn : c = '\n'
      · subst hn
        simp only [greedySlashSplit, if_pos rfl]
        simp [hc]
      · rw [gss_step c rest hn hc]
        exact ih hr

lemma gss_chunk_none : ∀ (a b : List Char), (∀ c ∈ a, c ≠ '/') →
    greedySlashSplit b = none → greedySlashSplit (a ++ b) = none := by
  intro a
  induction a with
  | nil => intro b _ hb; exact hb
  | cons c a' ih =>
      intro b h hb
      have hc : c ≠ '/' := h c (List.mem_cons_self c a')
      have h' : ∀ x ∈ a', x ≠ '/' := fun x m => h x (List.mem_cons_of_mem c m)
      by_cases hn : c = '\n'
      · subst hn
        rw [List.cons_append]
        simp only [greedySlashSplit, if_pos rfl]
        simp [hc]
      · rw [List.cons_append, gss_step c (a' ++ b) hn hc]
        exact ih b h' hb

lemma gss_chunk_pass : ∀ (a b : List Char), (∀ c ∈ a, c ≠ '/' ∧ c ≠ '\n') →
    greedySlashSplit (a ++ b) = greedySlashSplit b := by
  intro a
  induction a with
  | nil => intro b _; rfl
  | cons c a' ih =>
      intro b h
      obtain ⟨hc, hn⟩ := h c (List.mem_cons_self c a')
      rw [List.cons_append, gss_step c (a' ++ b) hn hc]
      exact ih b (fun x m => h x (List.mem_cons_of_mem c m))

lemma takeWhile_no_slash (name t : List Char) (h : '/' ∉ name) :
    (name ++ '/' :: t).takeWhile (fun c => c != '/') = name := by
  induction name with
  | nil => simp [List.takeWhile_cons]
  | cons c cs ih =>
      have hc : c ≠ '/' := fun e => h (e ▸ List.mem_cons_self c cs)
      have h' : '/' ∉ cs := fun m => h (List.mem_cons_of_mem c m)
      simp [List.takeWhile_cons, hc, ih h']

lemma dropWhile_no_slash (name t : List Char) (h : '/' ∉ name) :
    (name ++ '/' :: t).dropWhile (fun c => c != '/') = '/' :: t := by
  induction name with
  | nil => simp [List.dropWhile_cons]
  | cons c cs ih =>
      have hc : c ≠ '/' := fun e => h (e ▸ List.mem_cons_self c cs)
      have h' : '/' ∉ cs := fun m => h (List.mem_cons_of_mem c m)
      simp [List.dropWhile_cons, hc, ih h']

lemma takeWhile_digits (l : List Char) (h : l.all Char.isDigit = true) :
    l.takeWhile Char.isDigit = l := by
  induction l with
  | nil => rfl
  | cons d rest ih =>
      simp only [List.all_cons, Bool.and_eq_true] at h
      simp [List.takeWhile_cons, h.1, ih h.2]

lemma no_slash_of_digits (l : List Char) (h : l.all Char.isDigit = true) :
    '/' ∉ l := by
  intro m
  rw [List.all_eq_true] at h
  exact absurd (h '/' m) (by decide)

lemma matchDigitsPart_digits (digits : List Char) (hd : digits ≠ [])
    (hda : digits.all Char.isDigit = true) :
    matchDigitsPart digits = some digits := by
  simp only [matchDigitsPart]
  rw [takeWhile_digits digits hda]
  simp [hd]

lemma matchRepoPart_pr (digits : List Char)
    (hda : digits.all Char.isDigit = true) :
    matchRepoPart ("pull-requests/".data ++ digits) = none := by
  have e1 : ("pull-requests/".data ++ digits).takeWhile (fun c => c != '/')
      = "pull-requests".data := rfl
  have e2 : ("pull-requests/".data ++ digits).dropWhile (fun c => c != '/')
      = '/' :: digits := rfl
  have e3 : chopLit ("/pull-requests/".data) ('/' :: digits) = none := by
    have h0 : chopLit ("/pull-requests/".data) ('/' :: digits)
        = chopLit ("pull-requests/".data) digits := rfl
    rw [h0]
    exact chopLit_none_digits 'p' _ (by decide) digits hda
  simp only [matchRepoPart]
  rw [e1, e2, e3, if_neg (by decide : ¬ ("pull-requests".data : List Char) = [])]

lemma matchRepoPart_pos (repo digits : List Char) (hr : repo ≠ [])
    (hrs : '/' ∉ repo) (hd : digits ≠ [])
    (hda : digits.all Char.isDigit = true) :
    matchRepoPart (repo ++ '/' :: ("pull-requests/".data ++ digits))
      = some (repo, digits) := by
  simp only [matchRepoPart]
  rw [takeWhile_no_slash repo _ hrs, dropWhile_no_slash repo _ hrs,
    if_neg hr]
  have e1 : chopLit ("/pull-requests/".data)
      ('/' :: ("pull-requests/".data ++ digits)) = some digits := by
    have h0 : ('/' :: ("pull-requests/".data ++ digits))
        = "/pull-requests/".data ++ digits := rfl
    rw [h0]
    exact chopLit_self _ _
  rw [e1]
  show (match matchDigitsPart digits with
        | none => none
        | some d => some (repo, d)) = some (repo, digits)
  rw [matchDigitsPart_digits digits hd hda]

lemma matchTailRest_pr (digits : List Char)
    (hda : digits.all Char.isDigit = true) :
    matchTailRest ("pull-requests/".data ++ digits) = none := by
  have e1 : ("pull-requests/".data ++ digits).takeWhile (fun c => c != '/')
      = "pull-requests".data := rfl
  have e2 : ("pull-requests/".data ++ digits).dropWhile (fun c => c != '/')
      = '/' :: digits := rfl
  have e3 : chopLit ("/repos/".data) ('/' :: digits) = none := by
    have h0 : chopLit ("/repos/".data) ('/' :: digits)
        = chopLit ("repos/".data) digits := rfl
    rw [h0]
    exact chopLit_none_digits 'r' _ (by decide) digits hda
  simp only [matchTailRest]
  rw [e1, e2, e3, if_neg (by decide : ¬ ("pull-requests".data : List Char) = [])]

lemma matchTailRest_repos (repo digits : List Char) (hrs : '/' ∉ repo)
    (hda : digits.all Char.isDigit = true) :
    matchTailRest ("repos/".data
        ++ (repo ++ '/' :: ("pull-requests/".data ++ digits))) = none := by
  have e1 : ("repos/".data
        ++ (repo ++ '/' :: ("pull-requests/".data ++ digits))).takeWhile
        (fun c => c != '/') = "repos".data := rfl
  have e2 : ("repos/".data
        ++ (repo ++ '/' :: ("pull-requests/".data ++ digits))).dropWhile
        (fun c => c != '/')
      = '/' :: (repo ++ '/' :: ("pull-requests/".data ++ digits)) := rfl
  have e3 : chopLit ("/repos/".data)
      ('/' :: (repo ++ '/' :: ("pull-requests/".data ++ digits)))
      = if repo = "repos".data
        then some ("pull-requests/".data ++ digits) else none := by
    have h0 : chopLit ("/repos/".data)
        ('/' :: (repo ++ '/' :: ("pull-requests/".data ++ digits)))
        = chopLit ("repos".data ++ ['/'])
            (repo ++ '/' :: ("pull-requests/".data ++ digits)) := rfl
    rw [h0]
    exact chopLit_word_slash "repos".data repo _ (by decide) hrs
  simp only [matchTailRest]
  rw [e1, e2, e3, if_neg (by decide : ¬ ("repos".data : List Char) = [])]
  by_cases hrep : repo = "repos".data
  · rw [if_pos hrep]
    show (match matchRepoPart ("pull-requests/".data ++ digits) with
          | none => none
          | some (r, d) => some ("repos".data, r, d)) = none
    rw [matchRepoPart_pr digits hda]
  · rw [if_neg hrep]

lemma matchTailRest_pos (name repo digits : List Char) (hn : name ≠ [])
    (hns : '/' ∉ name) (hr : repo ≠ []) (hrs : '/' ∉ repo) (hd : digits ≠ [])
    (hda : digits.all Char.isDigit = true) :
    matchTailRest (name ++ '/' :: ("repos/".data
        ++ (repo ++ '/' :: ("pull-requests/".data ++ digits))))
      = some (name, repo, digits) := by
  simp only [matchTailRest]
  rw [takeWhile_no_slash name _ hns, dropWhile_no_slash name _ hns, if_neg hn]
  have e1 : chopLit ("/repos/".data)
      ('/' :: ("repos/".data
        ++ (repo ++ '/' :: ("pull-requests/".data ++ digits))))
      = some (repo ++ '/' :: ("pull-requests/".data ++ digits)) := by
    have h0 : ('/' :: ("repos/".data
          ++ (repo ++ '/' :: ("pull-requests/".data ++ digits))))
        = "/repos/".data
            ++ (repo ++ '/' :: ("pull-requests/".data ++ digits)) := rfl
    rw [h0]
    exact chopLit_self _ _
  rw [e1]
  show (match matchRepoPart (repo ++ '/' :: ("pull-requests/".data ++ digits)) with
        | none => none
        | some (r, d) => some (name, r, d)) = some (name, repo, digits)
  rw [matchRepoPart_pos repo digits hr hrs hd hda]

lemma matchTail_digits (digits : List Char)
    (hda : digits.all Char.isDigit = true) : matchTail digits = none := by
  have h1 : chopLit ("users/".data) digits = none :=
    chopLit_none_digits 'u' ("sers/".data) (by decide) digits hda
  have h2 : chopLit ("projects/".data) digits = none :=
    chopLit_none_digits 'p' ("rojects/".data) (by decide) digits hda
  unfold matchTail
  rw [h1, h2]

lemma matchTail_pr (digits : List Char) :
    matchTail ("pull-requests/".data ++ digits) = none := rfl

lemma matchTail_repos (X : List Char) :
    matchTail ("repos/".data ++ X) = none := rfl

lemma matchTail_repoSlash (repo digits : List Char) (hrs : '/' ∉ repo)
    (hda : digits.all Char.isDigit = true) :
    matchTail (repo ++ '/' :: ("pull-requests/".data ++ digits)) = none := by
  have hu : chopLit ("users/".data)
      (repo ++ '/' :: ("pull-requests/".data ++ digits))
      = if repo = "users".data
        then some ("pull-requests/".data ++ digits) else none := by
    have h0 : chopLit ("users/".data)
        (repo ++ '/' :: ("pull-requests/".data ++ digits))
        = chopLit ("users".data ++ ['/'])
            (repo ++ '/' :: ("pull-requests/".data ++ digits)) := rfl
    rw [h0]
    exact chopLit_word_slash "users".data repo _ (by decide) hrs
  have hp : chopLit ("projects/".data)
      (repo ++ '/' :: ("pull-requests/".data ++ digits))
      = if repo = "projects".data
        then some ("pull-requests/".data ++ digits) else none := by
    have h0 : chopLit ("projects/".data)
        (repo ++ '/' :: ("pull-requests/".data ++ digits))
        = chopLit ("projects".data ++ ['/'])
            (repo ++ '/' :: ("pull-requests/".data ++ digits)) := rfl
    rw [h0]
    exact chopLit_word_slash "projects".data repo _ (by decide) hrs
  unfold matchTail
  rw [hu]
  by_cases h1 : repo = "users".data
  · rw [if_pos h1]
    show matchTailRest ("pull-requests/".data ++ digits) = none
    exact matchTailRest_pr digits hda
  · rw [if_neg h1, hp]
    by_cases h2 : repo = "projects".data
    · rw [if_pos h2]
      show matchTailRest ("pull-requests/".data ++ digits) = none
      exact matchTailRest_pr digits hda
    · rw [if_neg h2]

lemma matchTail_rest2 (name repo digits : List Char) (hns : '/' ∉ name)
    (hrs : '/' ∉ repo) (hda : digits.all Char.isDigit = true) :
    matchTail (name ++ '/' :: ("repos/".data
        ++ (repo ++ '/' :: ("pull-requests/".data ++ digits)))) = none := by
  have hu : chopLit ("users/".data)
      (name ++ '/' :: ("repos/".data
        ++ (repo ++ '/' :: ("pull-requests/".data ++ digits))))
      = if name = "users".data
        then some ("repos/".data
          ++ (repo ++ '/' :: ("pull-requests/".data ++ digits)))
        else none := by
    have h0 : chopLit ("users/".data)
        (name ++ '/' :: ("repos/".data
          ++ (repo ++ '/' :: ("pull-requests/".data ++ digits))))
        = chopLit ("users".data ++ ['/'])
            (name ++ '/' :: ("repos/".data
              ++ (repo ++ '/' :: ("pull-requests/".data ++ digits)))) := rfl
    rw [h0]
    exact chopLit_word_slash "users".data name _ (by decide) hns
  have hp : chopLit ("projects/".data)
      (name ++ '/' :: ("repos/".data
        ++ (repo ++ '/' :: ("pull-requests/".data ++ digits))))
      = if name = "projects".data
        then some ("repos/".data
          ++ (repo ++ '/' :: ("pull-requests/".data ++ digits)))
        else none := by
    have h0 : chopLit ("projects/".data)
        (name ++ '/' :: ("repos/".data
          ++ (repo ++ '/' :: ("pull-requests/".data ++ digits))))
        = chopLit ("projects".data ++ ['/'])
            (name ++ '/' :: ("repos/".data
              ++ (repo ++ '/' :: ("pull-requests/".data ++ digits)))) := rfl
    rw [h0]
    exact chopLit_word_slash "projects".data name _ (by decide) hns
  unfold matchTail
  rw [hu]
  by_cases h1 : name = "users".data
  · rw [if_pos h1]
    show matchTailRest ("repos/".data
        ++ (repo ++ '/' :: ("pull-requests/".data ++ digits))) = none
    exact matchTailRest_repos repo digits hrs hda
  · rw [if_neg h1, hp]
    by_cases h2 : name = "projects".data
    · rw [if_pos h2]
      show matchTailRest ("repos/".data
          ++ (repo ++ '/' :: ("pull-requests/".data ++ digits))) = none
      exact matchTailRest_repos repo digits hrs hda
    · rw [if_neg h2]

lemma matchTail_pos (name repo digits : List Char) (hn : name ≠ [])
    (hns : '/' ∉ name) (hr : repo ≠ []) (hrs : '/' ∉ repo) (hd : digits ≠ [])
    (hda : digits.all Char.isDigit = true) :
    matchTail ("projects/".data ++ (name ++ '/' :: ("repos/".data
        ++ (repo ++ '/' :: ("pull-requests/".data ++ digits)))))
      = some (name, repo, digits) := by
  have hu : chopLit ("users/".data)
      ("projects/".data ++ (name ++ '/' :: ("repos/".data
        ++ (repo ++ '/' :: ("pull-requests/".data ++ digits))))) = none := rfl
  have hp : chopLit ("projects/".data)
      ("projects/".data ++ (name ++ '/' :: ("repos/".data
        ++ (repo ++ '/' :: ("pull-requests/".data ++ digits)))))
      = some (name ++ '/' :: ("repos/".data
          ++ (repo ++ '/' :: ("pull-requests/".data ++ digits)))) :=
    chopLit_self _ _
  unfold matchTail
  rw [hu, hp]
  show matchTailRest (name ++ '/' :: ("repos/".data
      ++ (repo ++ '/' :: ("pull-requests/".data ++ digits))))
      = some (name, repo, digits)
  exact matchTailRest_pos name repo digits hn hns hr hrs hd hda

lemma gss_digits (digits : List Char) (hda : digits.all Char.isDigit = true) :
    greedySlashSplit digits = none :=
  gss_none_of_no_slash digits (no_slash_of_digits digits hda)

lemma gss_slash_digits (digits : List Char)
    (hda : digits.all Char.isDigit = true) :
    greedySlashSplit ('/' :: digits) = none := by
  rw [gss_slash, gss_digits digits hda, matchTail_digits digits hda]

lemma gss_pr (digits : List Char) (hda : digits.all Char.isDigit = true) :
    greedySlashSplit ("pull-requests/".data ++ digits) = none := by
  have h0 : "pull-requests/".data ++ digits
      = "pull-requests".data ++ ('/' :: digits) := rfl
  rw [h0]
  exact gss_chunk_none "pull-requests".data ('/' :: digits) (by decide)
    (gss_slash_digits digits hda)

lemma gss_repoSlash (repo digits : List Char) (hrs : '/' ∉ repo)
    (hda : digits.all Char.isDigit = true) :
    greedySlashSplit (repo ++ '/' :: ("pull-requests/".data ++ digits))
      = none := by
  refine gss_chunk_none repo _ (fun c m e => hrs (e ▸ m)) ?_
  rw [gss_slash, gss_pr digits hda, matchTail_pr digits]

lemma gss_reposChunk (repo digits : List Char) (hrs : '/' ∉ repo)
    (hda : digits.all Char.isDigit = true) :
    greedySlashSplit ("repos/".data
        ++ (repo ++ '/' :: ("pull-requests/".data ++ digits))) = none := by
  have h0 : "repos/".data
        ++ (repo ++ '/' :: ("pull-requests/".data ++ digits))
      = "repos".data
        ++ ('/' :: (repo ++ '/' :: ("pull-requests/".data ++ digits))) := rfl
  rw [h0]
  refine gss_chunk_none "repos".data _ (by decide) ?_
  rw [gss_slash, gss_repoSlash repo digits hrs hda,
    matchTail_repoSlash repo digits hrs hda]

lemma gss_rest2 (name repo digits : List Char) (hns : '/' ∉ name)
    (hrs : '/' ∉ repo) (hda : digits.all Char.isDigit = true) :
    greedySlashSplit (name ++ '/' :: ("repos/".data
        ++ (repo ++ '/' :: ("pull-requests/".data ++ digits)))) = none := by
  refine gss_chunk_none name _ (fun c m e => hns (e ▸ m)) ?_
  rw [gss_slash, gss_reposChunk repo digits hrs hda,
    matchTail_repos (repo ++ '/' :: ("pull-requests/".data ++ digits))]

lemma gss_projChunk (name repo digits : List Char) (hns : '/' ∉ name)
    (hrs : '/' ∉ repo) (hda : digits.all Char.isDigit = true) :
    greedySlashSplit ("projects/".data ++ (name ++ '/' :: ("repos/".data
        ++ (repo ++ '/' :: ("pull-requests/".data ++ digits))))) = none := by
  have h0 : "projects/".data ++ (name ++ '/' :: ("repos/".data
        ++ (repo ++ '/' :: ("pull-requests/".data ++ digits))))
      = "projects".data ++ ('/' :: (name ++ '/' :: ("repos/".data
        ++ (repo ++ '/' :: ("pull-requests/".data ++ digits))))) := rfl
  rw [h0]
  refine gss_chunk_none "projects".data _ (by decide) ?_
  rw [gss_slash, gss_rest2 name repo digits hns hrs hda,
    matchTail_rest2 name repo digits hns hrs hda]

lemma gss_full (name repo digits : List Char) (hn : name ≠ [])
    (hns : '/' ∉ name) (hr : repo ≠ []) (hrs : '/' ∉ repo) (hd : digits ≠ [])
    (hda : digits.all Char.isDigit = true) :
    greedySlashSplit ("host".data ++ ('/' :: ("path".data
        ++ ('/' :: ("projects/".data ++ (name ++ '/' :: ("repos/".data
          ++ (repo ++ '/' :: ("pull-requests/".data ++ digits)))))))))
      = some (name, repo, digits) := by
  rw [gss_chunk_pass "host".data _ (by decide), gss_slash,
    gss_chunk_pass "path".data _ (by decide), gss_slash,
    gss_projChunk name repo digits hns hrs hda,
    matchTail_pos name repo digits hn hns hr hrs hd hda]

lemma matchScheme_https (R : List Char) :
    matchScheme ("https://".data ++ R) = some R := by
  unfold matchScheme
  have h1 : chopLit ("http".data) ("https://".data ++ R)
      = some ("s://".data ++ R) := by
    have h0 : "https://".data ++ R = "http".data ++ ("s://".data ++ R) := rfl
    rw [h0]
    exact chopLit_self _ _
  rw [h1]
  show (match chopLit ("s://".data) ("s://".data ++ R) with
        | some r' => some r'
        | none => chopLit ("://".data) ("s://".data ++ R)) = some R
  rw [chopLit_self ("s://".data) R]

lemma findStashURL_cons_some (c : Char) (rest R : List Char)
    (caps : List Char × List Char × List Char)
    (hs : matchScheme (c :: rest) = some R)
    (hg : greedySlashSplit R = some caps) :
    findStashURL (c :: rest) = some caps := by
  simp only [findStashURL]
  rw [hs]
  show (match greedySlashSplit R with
        | some caps => some caps
        | none => findStashURL rest) = some caps
  rw [hg]

lemma findStashURL_pos (name repo digits : List Char) (hn : name ≠ [])
    (hns : '/' ∉ name) (hr : repo ≠ []) (hrs : '/' ∉ repo) (hd : digits ≠ [])
    (hda : digits.all Char.isDigit = true) :
    findStashURL ("https://".data ++ ("host".data ++ ('/' :: ("path".data
        ++ ('/' :: ("projects/".data ++ (name ++ '/' :: ("repos/".data
          ++ (repo ++ '/' :: ("pull-requests/".data ++ digits))))))))))
      = some (name, repo, digits) := by
  have hg := gss_full name repo digits hn hns hr hrs hd hda
  exact findStashURL_cons_some _ _ _ _ (matchScheme_https _) hg

/-! ## Error-channel lemmas for the assign-reviewers handler -/

lemma collect_err_none (api : Oracle) :
    ∀ (gs acc : List String), (collectIntersectUsers api gs acc).2 = none := by
  intro gs
  induction gs with
  | nil => intro acc; rfl
  | cons g rest ih =>
      intro acc
      unfold collectIntersectUsers
      cases hg : GetUsers api g with
      | mk us err =>
          have he : err = none := by
            have h0 := GetUsers_err_none api g
            rw [hg] at h0
            exact h0
          subst he
          exact ih (acc ++ us)

lemma GetUsersIntersection_err_none (api : Oracle) (g : String)
    (gs : List String) : (GetUsersIntersection api g gs).2 = none := by
  unfold GetUsersIntersection
  cases hg : GetUsers api g with
  | mk us err =>
      have he : err = none := by
        have h0 := GetUsers_err_none api g
        rw [hg] at h0
        exact h0
      subst he
      cases hc : collectIntersectUsers api gs [] with
      | mk ius cerr =>
          have hce : cerr = none := by
            have h0 := collect_err_none api gs []
            rw [hc] at h0
            exact h0
          subst hce
          rfl

/-- C6: the pull-request URL matcher.  For any non-empty slash-free
project name and repository and any non-empty digit string, the URL
`https://host/path/projects/<name>/repos/<repo>/pull-requests/<digits>`
yields exactly the captures `(<name>, <repo>, <digits>)`; a URL missing
the `pull-requests/<digits>` suffix matches nowhere; and whenever the
pattern matches nowhere, `handleAddReviewers` answers 400 `wrong url`
(the `InvalidURL` failure). -/
theorem stash_url_match (name repo digits : List Char) (hn : name ≠ [])
    (hns : '/' ∉ name) (hr : repo ≠ []) (hrs : '/' ∉ repo) (hd : digits ≠ [])
    (hda : digits.all Char.isDigit = true) :
    findStashURL ("https://host/path/projects/".data ++ name ++ "/repos/".data
        ++ repo ++ "/pull-requests/".data ++ digits)
      = some (name, repo, digits) ∧
    findStashURL ("https://host/path/projects/FOO/repos/bar".data) = none ∧
    (∀ (api : Oracle) (prInfo : Except String (String × Int))
        (putErr : Option String) (stashUser usergroup : String)
        (intersectGroups : List String) (url : List Char),
      findStashURL url = none →
      handleAddReviewers api prInfo putErr stashUser intersectGroups usergroup
          url
        = HandlerResult.badRequest "wrong url") := by
  refine ⟨?_, rfl, ?_⟩
  · have e2 : "https://host/path/projects/".data ++ name ++ "/repos/".data
        ++ repo ++ "/pull-requests/".data ++ digits
        = "https://".data ++ ("host".data ++ ('/' :: ("path".data
          ++ ('/' :: ("projects/".data ++ (name ++ '/' :: ("repos/".data
            ++ (repo ++ '/' :: ("pull-requests/".data ++ digits))))))))) := by
      simp only [List.append_assoc]
      rfl
    rw [e2]
    exact findStashURL_pos name repo digits hn hns hr hrs hd hda
  · intro api prInfo putErr stashUser usergroup intersectGroups url hurl
    unfold handleAddReviewers
    cases hgi : GetUsersIntersection api usergroup intersectGroups with
    | mk us err =>
        have he : err = none := by
          have h0 := GetUsersIntersection_err_none api usergroup intersectGroups
          rw [hgi] at h0
          exact h0
        subst he
        rw [hurl]

/-- C6 witness: the concrete example URL of the specification yields
project `FOO`, repository `bar`, id `42`. -/
theorem stash_url_match_witness :
    findStashURL ("https://host/path/projects/".data ++ "FOO".data
        ++ "/repos/".data ++ "bar".data ++ "/pull-requests/".data ++ "42".data)
      = some ("FOO".data, "bar".data, "42".data) :=
  (stash_url_match "FOO".data "bar".data "42".data (by decide) (by decide)
    (by decide) (by decide) (by decide) (by decide)).1

/-- C10: with an empty configured `intersect` list, the intersection is
applied unconditionally against no users, so the candidate set is empty
whatever the target group resolves to, and any update payload the handler
sends carries an empty reviewer list. -/
theorem empty_intersect_empty_reviewers (api : Oracle)
    (prInfo : Except String (String × Int)) (putErr : Option String)
    (stashUser usergroup : String) (url : List Char) (payload : UpdatePayload)
    (h : handleAddReviewers api prInfo putErr stashUser [] usergroup url
        = HandlerResult.success payload) :
    payload.reviewers = [] ∧ (GetUsersIntersection api usergroup []).1 = [] := by
  have hgi : GetUsersIntersection api usergroup [] = ([], none) := by
    unfold GetUsersIntersection
    cases hg : GetUsers api usergroup with
    | mk us err =>
        have he : err = none := by
          have h0 := GetUsers_err_none api usergroup
          rw [hg] at h0
          exact h0
        subst he
        show (getIntersection us [], none) = ([], none)
        rw [getIntersection_nil_aux us]
  refine ⟨?_, by rw [hgi]⟩
  unfold handleAddReviewers at h
  rw [hgi] at h
  cases hurl : findStashURL url with
  | none =>
      rw [hurl] at h
      exact absurd h (by simp)
  | some caps =>
      obtain ⟨proj, caps2⟩ := caps
      obtain ⟨repos, pr⟩ := caps2
      rw [hurl] at h
      cases prInfo with
      | error e => simp [AddReviewers] at h
      | ok av =>
          obtain ⟨author, version⟩ := av
          cases putErr with
          | some e => simp [AddReviewers] at h
          | none =>
              simp only [AddReviewers] at h
              have hp : (UpdatePayload.mk pr version
                  (getReviewers [] [author, stashUser])) = payload := by
                have h2 := h
                simp at h2
                exact h2
              rw [← hp]
              rfl

/-- C10 witness: a concrete successful assign-reviewers run with an empty
`intersect` configuration sends an empty reviewer list. -/
theorem empty_intersect_empty_reviewers_witness :
    (UpdatePayload.mk ("7".data) 3 []).reviewers = [] ∧
    (GetUsersIntersection (fun _ => some [⟨"alice"⟩]) "dev" []).1 = [] :=
  empty_intersect_empty_reviewers (fun _ => some [⟨"alice"⟩])
    (Except.ok ("bob", 3)) none "svc" "dev"
    ("https://h/projects/P/repos/r/pull-requests/7".data)
    (UpdatePayload.mk ("7".data) 3 []) rfl

end Snobs
